import Mathlib

/-!
Verification of the Chromium disk-cache reader in
`fanficfare/chromagnon/cacheParse.py`.

The file under verification is `cacheParse.py` alone; its helper modules
(`cacheAddress.py`, `cacheEntry.py`, `cacheBlock.py`, `cacheData.py`,
`SuperFastHash.py`) are not part of the sources, so the few facts about
them that the claims need are modelled from the design document and kept
abstract wherever possible.

The embedding makes the two effects of the Python code explicit:

* an exception raised while decoding one cache entry (`CacheEntry` /
  `CacheAddress` constructors) propagates out of `parse` — modelled with a
  `raised` result constructor;
* the chain-walking `while` loops have no fuel in Python — they are
  modelled with an explicit fuel argument, and a `running` result means
  the unbounded Python loop would still be iterating after that many hops.
-/

namespace CacheParse

/-- Errors the (spec-modelled) entry decoder and the external decompressors
can raise: `malformedAddress`/`corruptEntry` for `CacheAddress`/`CacheEntry`
construction, `decodeError` for a failed gzip/brotli decompression. -/
inductive CacheErr where
  | malformedAddress
  | corruptEntry
  | decodeError
deriving DecidableEq, Repr

/-- Modelled from the spec: the `type` tag of a `CacheData` stream —
`UNKNOWN` marks a payload (body) stream, `HTTP_HEADER` a parsed header
stream; `get_cached_file` only extracts `UNKNOWN` streams. -/
inductive DataType where
  | UNKNOWN
  | HTTP_HEADER
deriving DecidableEq, Repr

/-- Modelled from the spec: one `CacheData` stream of an entry, carrying its
type tag and the bytes that `entry.data[i].data()` reads back. -/
structure CacheDataItem where
  type : DataType
  bytes : List Nat
deriving DecidableEq, Repr

/-- Modelled from the spec: the parsed HTTP header block of an entry
(`entry.httpHeader.headers`), a mapping from lower-cased header name to
value; modelled as an association list with first-match lookup. -/
structure HttpHeader where
  headers : List (String × String)
deriving DecidableEq, Repr

/-- Modelled from the spec: the decoded logical cache entry (`CacheEntry`),
restricted to the fields `cacheParse.py` reads: the 32-bit `hash` of the
key, the `next` chain address token (0 = end of chain), the key string
(`keyToStr()`), the data streams and the optional parsed HTTP header. -/
structure Entry where
  hash : Nat
  next : Nat
  key : String
  data : List CacheDataItem
  httpHeader : Option HttpHeader
deriving DecidableEq, Repr

/-- A cache snapshot as `parse` observes it: the index table size read from
the `index` file header, the raw 32-bit address token stored at each bucket
slot of the index table, and the entry decoder.  `decodeEntry t` models the
Python expression `CacheEntry(CacheAddress(t, path=path))`, which either
returns a decoded entry or raises (modelled from the spec: the decoder
fails with `MalformedAddress`/`CorruptEntry` on a structurally bad
token/record). -/
structure Snapshot where
  tableSize : Nat
  table : Nat → Nat
  decodeEntry : Nat → Except CacheErr Entry

/-- Result of running one of the unbounded Python loops with `fuel` hops of
observation: `running` means the loop has not finished within the fuel (the
Python code would still be iterating), `raised e` means an exception
propagated, `done a` means the loop finished with value `a`. -/
inductive RunRes (α : Type) where
  | running
  | raised (e : CacheErr)
  | done (a : α)
deriving DecidableEq, Repr

instance {ε α : Type} [DecidableEq ε] [DecidableEq α] :
    DecidableEq (Except ε α) := fun x y =>
  match x, y with
  | .error a, .error b =>
    if h : a = b then isTrue (by rw [h])
    else isFalse (by intro hc; cases hc; exact h rfl)
  | .error _, .ok _ => isFalse (by intro hc; cases hc)
  | .ok _, .error _ => isFalse (by intro hc; cases hc)
  | .ok a, .ok b =>
    if h : a = b then isTrue (by rw [h])
    else isFalse (by intro hc; cases hc; exact h rfl)

/-- Output of `parse`: the `cache` list it returns plus the urls it printed
to stderr as "not in the cache" (misses), in order. -/
structure ParseOut where
  cache : List Entry
  misses : List (List Nat)
deriving DecidableEq, Repr

/-- Reduction modulo 2^32, making every arithmetic step of the hash a
32-bit operation. -/
def mask32 (n : Nat) : Nat :=
  n % 4294967296

/-- A little-endian 16-bit read of two bytes, the `get16bits` step of the
hash. -/
def get16 (b0 b1 : Nat) : Nat :=
  b0 + b1 * 256

/-- Modelled from the spec: the main loop of `SuperFastHash.superFastHash`
(the module is not among the sources) — a 32-bit rolling hash mixing four
input bytes at a time with fixed shift/add constants (Paul Hsieh's
SuperFastHash), followed by the remainder cases for 1-3 trailing bytes. -/
def sfhMain (hash : Nat) : List Nat → Nat
  | b0 :: b1 :: b2 :: b3 :: rest =>
    let h1 := mask32 (hash + get16 b0 b1)
    let tmp := mask32 ((get16 b2 b3) <<< 11) ^^^ h1
    let h2 := mask32 ((h1 <<< 16) ^^^ tmp)
    let h3 := mask32 (h2 + (h2 >>> 11))
    sfhMain h3 rest
  | [b0, b1, b2] =>
    let h1 := mask32 (hash + get16 b0 b1)
    let h2 := mask32 (h1 ^^^ mask32 (h1 <<< 16))
    let h3 := mask32 (h2 ^^^ mask32 (b2 <<< 18))
    mask32 (h3 + (h3 >>> 11))
  | [b0, b1] =>
    let h1 := mask32 (hash + get16 b0 b1)
    let h2 := mask32 (h1 ^^^ mask32 (h1 <<< 11))
    mask32 (h2 + (h2 >>> 17))
  | [b0] =>
    let h1 := mask32 (hash + b0)
    let h2 := mask32 (h1 ^^^ mask32 (h1 <<< 10))
    mask32 (h2 + (h2 >>> 1))
  | [] => hash

/-- Modelled from the spec: the final three avalanche mix steps of
SuperFastHash. -/
def sfhAvalanche (hash : Nat) : Nat :=
  let h1 := mask32 (hash ^^^ mask32 (hash <<< 3))
  let h2 := mask32 (h1 + (h1 >>> 5))
  let h3 := mask32 (h2 ^^^ mask32 (h2 <<< 4))
  let h4 := mask32 (h3 + (h3 >>> 17))
  let h5 := mask32 (h4 ^^^ mask32 (h4 <<< 25))
  mask32 (h5 + (h5 >>> 6))

/-- Modelled from the spec: `SuperFastHash.superFastHash` over the UTF-8
bytes of a URL — hash seeded with the input length, main mixing loop, then
the avalanche finalization. -/
def superFastHash (data : List Nat) : Nat :=
  sfhAvalanche (sfhMain (mask32 data.length) data)

/-- Bucket index computation of `parse` line 120: `hash & (tableSize - 1)`. -/
def bucketKey (hash tableSize : Nat) : Nat :=
  hash &&& (tableSize - 1)

/-- The full-enumeration chain walk of `parse` lines 110-113, starting from
an already decoded entry `e`:
`while entry.next != 0: cache.append(entry); entry = CacheEntry(...)`
followed by a final `cache.append(entry)`.  Produces the visited entries in
discovery order; a decode exception propagates; `running` if the walk has
not terminated within `fuel` hops. -/
def chainFrom (s : Snapshot) (e : Entry) : Nat → RunRes (List Entry)
  | 0 => .running
  | fuel + 1 =>
    if e.next = 0 then
      .done [e]
    else
      match s.decodeEntry e.next with
      | .error err => .raised err
      | .ok e2 =>
        match chainFrom s e2 fuel with
        | .running => .running
        | .raised err => .raised err
        | .done l => .done (e :: l)

/-- One bucket of the full enumeration, `parse` lines 103-113: read the raw
token at bucket `key`; a zero token contributes nothing, otherwise decode
the head entry and walk its chain. -/
def bucketEntries (s : Snapshot) (key fuel : Nat) : RunRes (List Entry) :=
  let raw := s.table key
  if raw = 0 then
    .done []
  else
    match s.decodeEntry raw with
    | .error err => .raised err
    | .ok e => chainFrom s e fuel

/-- The `for key in range(cacheBlock.tableSize)` loop of the full
enumeration, over an explicit list of bucket indices, concatenating each
bucket's chain; an exception in any bucket propagates and discards
everything. -/
def parseBuckets (s : Snapshot) (fuel : Nat) : List Nat → RunRes (List Entry)
  | [] => .done []
  | k :: ks =>
    match bucketEntries s k fuel with
    | .running => .running
    | .raised err => .raised err
    | .done l =>
      match parseBuckets s fuel ks with
      | .running => .running
      | .raised err => .raised err
      | .done rest => .done (l ++ rest)

/-- The targeted chain walk of `parse` lines 131-133:
`while entry.hash != hash and entry.next != 0: entry = CacheEntry(...)`
followed by `if entry.hash == hash: cache.append(entry)`.
Returns `some` the accepted entry, or `none` when the chain ended without a
hash match (nothing appended). -/
def findInChain (s : Snapshot) (h : Nat) (e : Entry) : Nat → RunRes (Option Entry)
  | 0 => .running
  | fuel + 1 =>
    if e.hash = h then
      .done (some e)
    else if e.next = 0 then
      .done none
    else
      match s.decodeEntry e.next with
      | .error err => .raised err
      | .ok e2 => findInChain s h e2 fuel

/-- Per-URL result of the targeted branch: `miss` means the bucket head was
uninitialized and the URL was printed as not in the cache; `found` means an
entry with matching hash was appended; `noMatch` means the chain ended with
no hash match (silently contributes nothing). -/
inductive UrlResult where
  | miss
  | found (e : Entry)
  | noMatch
deriving DecidableEq, Repr

/-- One URL of the targeted branch of `parse`, lines 116-134, with the URL
already encoded to bytes: hash it with SuperFastHash, compute the bucket,
read the head token; if its top bit (`0x80000000`) is clear report a miss,
otherwise decode the head and walk the chain. -/
def lookupUrl (s : Snapshot) (url : List Nat) (fuel : Nat) : RunRes UrlResult :=
  let h := superFastHash url
  let key := bucketKey h s.tableSize
  let addr := s.table key
  if addr &&& 0x80000000 = 0 then
    .done .miss
  else
    match s.decodeEntry addr with
    | .error err => .raised err
    | .ok e =>
      match findInChain s h e fuel with
      | .running => .running
      | .raised err => .raised err
      | .done (some e2) => .done (.found e2)
      | .done none => .done .noMatch

/-- The `for url in urls` loop of the targeted branch, collecting the
appended entries and the printed misses in order. -/
def parseUrls (s : Snapshot) (fuel : Nat) :
    List (List Nat) → RunRes ParseOut
  | [] => .done ⟨[], []⟩
  | u :: us =>
    match lookupUrl s u fuel with
    | .running => .running
    | .raised err => .raised err
    | .done r =>
      match parseUrls s fuel us with
      | .running => .running
      | .raised err => .raised err
      | .done out =>
        match r with
        | .miss => .done ⟨out.cache, u :: out.misses⟩
        | .found e => .done ⟨e :: out.cache, out.misses⟩
        | .noMatch => .done out

/-- The `parse(path, urls)` entry point: with `urls = none` enumerate every
bucket of the index table; with `urls = some us` look up each URL.  The
returned `cache` list and the stderr misses are both captured. -/
def parse (s : Snapshot) (urls : Option (List (List Nat))) (fuel : Nat) :
    RunRes ParseOut :=
  match urls with
  | none =>
    match parseBuckets s fuel (List.range s.tableSize) with
    | .running => .running
    | .raised err => .raised err
    | .done l => .done ⟨l, []⟩
  | some us => parseUrls s fuel us

/-- External decompression collaborators of `get_cached_file`:
`gzip.decompress` and `brotli_decompress`.  Both are outside this
repository; they either return the inflated bytes or raise. -/
structure Codecs where
  gunzip : List Nat → Except CacheErr (List Nat)
  unbr : List Nat → Except CacheErr (List Nat)

/-- Membership/lookup of one header name in `entry.httpHeader.headers`
(a Python dict access, modelled on the association list). -/
def headerVal (hh : HttpHeader) (name : String) : Option String :=
  (hh.headers.find? (fun p => p.1 == name)).map (fun p => p.2)

/-- The body of the `for i in range(len(entry.data))` loop of
`get_cached_file` (lines 156-168): scan the data streams in order; at the
first stream of type `UNKNOWN`, read its bytes, gunzip them when the
entry's `content-encoding` header is `gzip`, brotli-decompress when it is
`br`, and return them; any other encoding (or no header) returns the bytes
unchanged.  A decompression exception propagates.  If no `UNKNOWN` stream
exists the loop falls through and the function returns `None`. -/
def extractData (c : Codecs) (e : Entry) : List CacheDataItem →
    Except CacheErr (Option (List Nat))
  | [] => .ok none
  | d :: rest =>
    if d.type = .UNKNOWN then
      match e.httpHeader with
      | none => .ok (some d.bytes)
      | some hh =>
        match headerVal hh "content-encoding" with
        | none => .ok (some d.bytes)
        | some v =>
          if v = "gzip" then
            match c.gunzip d.bytes with
            | .error err => .error err
            | .ok out => .ok (some out)
          else if v = "br" then
            match c.unbr d.bytes with
            | .error err => .error err
            | .ok out => .ok (some out)
          else
            .ok (some d.bytes)
    else
      extractData c e rest

/-- First-match lookup in the `hash_cache` dictionary, modelled as an
association list where later insertions sit in front (Python dict
overwrite). -/
def lookupAssoc (m : List (String × Entry)) (k : String) : Option Entry :=
  (m.find? (fun p => p.1 == k)).map (fun p => p.2)

/-- `ChromeCache.get_cached_file(url)` (lines 153-169): if `url` is a key
of `hash_cache`, extract the first `UNKNOWN` data stream of the entry
(with content decoding); otherwise return `None`. -/
def get_cached_file (c : Codecs) (hc : List (String × Entry)) (url : String) :
    Except CacheErr (Option (List Nat)) :=
  match lookupAssoc hc url with
  | some e => extractData c e e.data
  | none => .ok none

/-- Substring test `needle in hay` of Python, on character lists. -/
def hasSub (needle : List Char) : List Char → Bool
  | [] => needle.isEmpty
  | c :: rest => needle.isPrefixOf (c :: rest) || hasSub needle rest

/-- The characters of the filter substring `'fanfiction.net'` used by
`ChromeCache.__init__`. -/
def ffnChars : List Char :=
  "fanfiction.net".data

/-- Strip an expected literal from the front of the input, the regex-literal
steps of the normalization pattern. -/
def stripLit (lit s : List Char) : Option (List Char) :=
  if lit.isPrefixOf s then some (s.drop lit.length) else none

/-- One `.` wildcard of the pattern: any single character except a
newline. -/
def stripAny : List Char → Option (List Char)
  | [] => none
  | c :: rest => if c = '\n' then none else some rest

/-- One `\d+` of the pattern: strip one or more ASCII digits. -/
def stripDigits (s : List Char) : Option (List Char) :=
  match s.span Char.isDigit with
  | ([], _) => none
  | (_ :: _, rest) => some rest

/-- The trailing `.+$` of the pattern: at least one non-newline character,
reaching the end of the string or a single final newline (which `$`
permits); returns the characters the match consumes. -/
def matchTail : List Char → Option (List Char)
  | [] => none
  | [c] =>
    if c = '\n' then none else some [c]
  | c :: c2 :: rest =>
    if c = '\n' then none
    else if c2 :: rest = ['\n'] then some [c]
    else (matchTail (c2 :: rest)).map (fun t => c :: t)

/-- Matcher for the anchored pattern
`^(https://www.fanfiction.net/s/\d+/\d+/).+$` of `ChromeCache.__init__`
line 148 (each `.` is the regex any-character): on a match, returns the
text of capture group 1, the story-URL prefix up to and including the
chapter slash. -/
def matchStory (s : List Char) : Option (List Char) := do
  let r1 ← stripLit "https://www".data s
  let r2 ← stripAny r1
  let r3 ← stripLit "fanfiction".data r2
  let r4 ← stripAny r3
  let r5 ← stripLit "net/s/".data r4
  let r6 ← stripDigits r5
  let r7 ← stripLit "/".data r6
  let r8 ← stripDigits r7
  let r9 ← stripLit "/".data r8
  let _ ← matchTail r9
  some (s.take (s.length - r9.length))

/-- `re.sub` of the story pattern (line 148): when the pattern matches the
key, the whole match is replaced by group 1, i.e. the result is the group-1
prefix followed by whatever `$` left unconsumed (at most one final
newline); an unmatched key is returned unchanged. -/
def normkey (key : String) : String :=
  match matchStory key.data with
  | some g1 =>
    match matchTail ((key.data).drop g1.length) with
    | some t => ⟨g1 ++ (key.data.drop (g1.length + t.length))⟩
    | none => key
  | none => key

/-- One iteration of the `for entry in self.cache` loop of
`ChromeCache.__init__` (lines 143-150): skip the entry unless its key
contains `'fanfiction.net'`, otherwise bind the full key and then the
normalized story-URL key to the entry (a later binding shadows an earlier
one, like the dict assignments). -/
def hcStep (m : List (String × Entry)) (e : Entry) : List (String × Entry) :=
  if hasSub ffnChars e.key.data then
    (normkey e.key, e) :: (e.key, e) :: m
  else
    m

/-- `ChromeCache.__init__` (lines 139-151): index the parsed entries whose
key contains `'fanfiction.net'`, each under its full key and under its
normalized story-URL key. -/
def buildHashCache (cache : List Entry) : List (String × Entry) :=
  cache.foldl hcStep []

/-- Declarative description of a finite collision chain: `ChainRel s e l`
holds when `l` is exactly the sequence of entries obtained from `e` by
following `next` tokens (decoding each successfully) until an entry with
`next = 0`, head first. -/
inductive ChainRel (s : Snapshot) : Entry → List Entry → Prop where
  | last (e : Entry) (hz : e.next = 0) : ChainRel s e [e]
  | cons (e e2 : Entry) (l : List Entry) (hnz : e.next ≠ 0)
      (hdec : s.decodeEntry e.next = .ok e2) (tail : ChainRel s e2 l) :
      ChainRel s e (e :: l)

/-- The chain walk from `e` never finishes: at every fuel bound it is still
running — the unbounded Python loop neither terminates nor raises. -/
def chainHangs (s : Snapshot) (e : Entry) : Prop :=
  ∀ fuel, chainFrom s e fuel = .running

/-- The entry list contributed by one bucket when its walk completed within
the fuel, and `[]` otherwise. -/
def bucketList (s : Snapshot) (k fuel : Nat) : List Entry :=
  match bucketEntries s k fuel with
  | .done l => l
  | _ => []

/-- The first data stream of type `UNKNOWN`, which is the one whose bytes
`get_cached_file` returns. -/
def firstUnknown (l : List CacheDataItem) : Option CacheDataItem :=
  l.find? (fun d => d.type == .UNKNOWN)

/-- An entry consisting of a hash and a next pointer only, for
parse-level test fixtures. -/
def mkEntry (h n : Nat) : Entry :=
  ⟨h, n, "", [], none⟩

/-- First entry of the three-entry chain fixture: hash `H1 = 1`, chained to
the second. -/
def chainE1 : Entry := mkEntry 1 0x80000002

/-- Second entry of the three-entry chain fixture, the one whose hash is
the SuperFastHash of the one-byte URL `"u"` (`[117]`). -/
def chainE2 : Entry := mkEntry 294797628 0x80000003

/-- Third entry of the three-entry chain fixture: hash `H3 = 3`, end of the
chain. -/
def chainE3 : Entry := mkEntry 3 0

/-- Snapshot holding one three-entry chain `H1 → H2 → H3` behind every
bucket of a table of size 4. -/
def chain3 : Snapshot :=
  ⟨4, fun _ => 0x80000001,
    fun t =>
      if t = 0x80000001 then .ok chainE1
      else if t = 0x80000002 then .ok chainE2
      else if t = 0x80000003 then .ok chainE3
      else .error .malformedAddress⟩

/-- First entry of the cyclic fixture: its `next` points to the second. -/
def cycE1 : Entry := mkEntry 1 0x80000002

/-- Second entry of the cyclic fixture: its `next` points back to the
first. -/
def cycE2 : Entry := mkEntry 2 0x80000001

/-- Snapshot whose single bucket heads a two-entry cycle
`cycE1 → cycE2 → cycE1 → …`. -/
def cycSnap : Snapshot :=
  ⟨1, fun _ => 0x80000001,
    fun t =>
      if t = 0x80000001 then .ok cycE1
      else if t = 0x80000002 then .ok cycE2
      else .error .malformedAddress⟩

/-- A well-formed single entry with `next = 0`. -/
def goodE : Entry := mkEntry 7 0

/-- Snapshot with two buckets: bucket 0 holds the one-entry chain `goodE`,
bucket 1 is empty (zero head token). -/
def twoBucket : Snapshot :=
  ⟨2, fun k => if k = 0 then 0x80000001 else 0,
    fun t => if t = 0x80000001 then .ok goodE else .error .malformedAddress⟩

/-- Snapshot where bucket 0 decodes fine but bucket 1's head entry raises
`CorruptEntry` while decoding. -/
def cex4 : Snapshot :=
  ⟨2, fun k => if k = 0 then 0x80000001 else 0x80000002,
    fun t => if t = 0x80000001 then .ok goodE else .error .corruptEntry⟩

/-- Snapshot whose single bucket head token is `1`: nonzero but with the
top (initialized) bit clear; every decode attempt raises
`MalformedAddress`. -/
def cex5 : Snapshot :=
  ⟨1, fun _ => 1, fun _ => .error .malformedAddress⟩

/-- Snapshot whose every bucket head token is `5` (top bit clear,
uninitialized) and whose decoder always raises. -/
def uninitSnap : Snapshot :=
  ⟨4, fun _ => 5, fun _ => .error .corruptEntry⟩

/-- Decompressors that always fail, standing in for `gzip.decompress` /
`brotli_decompress` on malformed input. -/
def failCodecs : Codecs :=
  ⟨fun _ => .error .decodeError, fun _ => .error .decodeError⟩

/-- Entry whose body stream `[9, 9]` is declared `content-encoding: gzip`. -/
def gzEntry : Entry :=
  ⟨10, 0, "u", [⟨.UNKNOWN, [9, 9]⟩], some ⟨[("content-encoding", "gzip")]⟩⟩

/-- Hash cache holding `gzEntry` under the key `"u"`. -/
def hc7 : List (String × Entry) :=
  [("u", gzEntry)]

/-- Entry whose body stream `[4, 4]` is declared `content-encoding: br`. -/
def brEntry : Entry :=
  ⟨15, 0, "v", [⟨.UNKNOWN, [4, 4]⟩], some ⟨[("content-encoding", "br")]⟩⟩

/-- Hash cache holding `brEntry` under the key `"v"`. -/
def hc7b : List (String × Entry) :=
  [("v", brEntry)]

/-- Entry whose body stream `[7, 8]` is declared `content-encoding:
identity`. -/
def idEntry : Entry :=
  ⟨11, 0, "a", [⟨.UNKNOWN, [7, 8]⟩], some ⟨[("content-encoding", "identity")]⟩⟩

/-- Entry with the same body bytes but an unsupported `content-encoding:
deflate`. -/
def deflEntry : Entry :=
  ⟨12, 0, "b", [⟨.UNKNOWN, [7, 8]⟩], some ⟨[("content-encoding", "deflate")]⟩⟩

/-- Hash cache holding the identity-encoded entry under `"a"` and the
deflate-encoded entry under `"b"`. -/
def hc8 : List (String × Entry) :=
  [("a", idEntry), ("b", deflEntry)]

/-- A parsed entry whose key is a fanfiction.net story chapter URL. -/
def ffnEntry : Entry :=
  ⟨13, 0, "https://www.fanfiction.net/s/123/4/Story-Title", [], none⟩

/-- A parsed entry whose key is unrelated to fanfiction.net. -/
def otherEntry : Entry :=
  ⟨14, 0, "https://example.com/x", [], none⟩

/-- A two-entry parse result for exercising `ChromeCache.__init__`. -/
def cache10 : List Entry :=
  [ffnEntry, otherEntry]

/-- One unfolding step of the full chain walk. -/
theorem chainFrom_succ (s : Snapshot) (e : Entry) (n : Nat) :
    chainFrom s e (n + 1) =
      if e.next = 0 then .done [e]
      else
        match s.decodeEntry e.next with
        | .error err => .raised err
        | .ok e2 =>
          match chainFrom s e2 n with
          | .running => .running
          | .raised err => .raised err
          | .done l => .done (e :: l) := rfl

/-- One unfolding step of the targeted chain walk. -/
theorem findInChain_succ (s : Snapshot) (h : Nat) (e : Entry) (n : Nat) :
    findInChain s h e (n + 1) =
      if e.hash = h then .done (some e)
      else if e.next = 0 then .done none
      else
        match s.decodeEntry e.next with
        | .error err => .raised err
        | .ok e2 => findInChain s h e2 n := rfl

/-- When the full chain walk from `e` completes with list `l`, the targeted
walk from `e` with target hash `h` completes with the first element of `l`
whose stored hash equals `h` (or `none` when no element matches). -/
theorem findInChain_eq_find (s : Snapshot) (h : Nat) :
    ∀ (fuel : Nat) (e : Entry) (l : List Entry),
      chainFrom s e fuel = .done l →
      findInChain s h e fuel = .done (l.find? (fun x => x.hash == h)) := by
  intro fuel
  induction fuel with
  | zero => intro e l hl; simp [chainFrom] at hl
  | succ n ih =>
    intro e l hl
    rw [chainFrom_succ] at hl
    by_cases hz : e.next = 0
    · rw [if_pos hz] at hl
      cases hl
      by_cases hh : e.hash = h
      · simp [findInChain_succ, hh]
      · simp [findInChain_succ, hh, hz, List.find?_cons_of_neg, beq_iff_eq]
    · rw [if_neg hz] at hl
      cases hdec : s.decodeEntry e.next with
      | error err => simp [hdec] at hl
      | ok e2 =>
        rw [hdec] at hl
        cases hrec : chainFrom s e2 n with
        | running => simp [hrec] at hl
        | raised err => simp [hrec] at hl
        | done l2 =>
          simp only [hrec, RunRes.done.injEq] at hl
          subst hl
          by_cases hh : e.hash = h
          · simp [findInChain_succ, hh]
          · rw [findInChain_succ, if_neg hh, if_neg hz, hdec]
            simp only [ih e2 l2 hrec]
            rw [List.find?_cons_of_neg _ (by simpa [beq_iff_eq] using hh)]

/-- When the chain walk completes, its result list is the declarative chain
of its start entry. -/
theorem chainFrom_rel (s : Snapshot) :
    ∀ (fuel : Nat) (e : Entry) (l : List Entry),
      chainFrom s e fuel = .done l → ChainRel s e l := by
  intro fuel
  induction fuel with
  | zero => intro e l hl; simp [chainFrom] at hl
  | succ n ih =>
    intro e l hl
    rw [chainFrom_succ] at hl
    by_cases hz : e.next = 0
    · rw [if_pos hz] at hl
      cases hl
      exact ChainRel.last e hz
    · rw [if_neg hz] at hl
      cases hdec : s.decodeEntry e.next with
      | error err => simp [hdec] at hl
      | ok e2 =>
        rw [hdec] at hl
        cases hrec : chainFrom s e2 n with
        | running => simp [hrec] at hl
        | raised err => simp [hrec] at hl
        | done l2 =>
          simp only [hrec, RunRes.done.injEq] at hl
          subst hl
          exact ChainRel.cons e e2 l2 hz hdec (ih e2 l2 hrec)

/-- A completed chain walk ends at the chain terminator: the last visited
entry has `next = 0`. -/
theorem chainFrom_last_next_zero (s : Snapshot) :
    ∀ (fuel : Nat) (e : Entry) (l : List Entry),
      chainFrom s e fuel = .done l →
      ∃ x, l.getLast? = some x ∧ x.next = 0 := by
  intro fuel
  induction fuel with
  | zero => intro e l hl; simp [chainFrom] at hl
  | succ n ih =>
    intro e l hl
    rw [chainFrom_succ] at hl
    by_cases hz : e.next = 0
    · rw [if_pos hz] at hl
      cases hl
      exact ⟨e, rfl, hz⟩
    · rw [if_neg hz] at hl
      cases hdec : s.decodeEntry e.next with
      | error err => simp [hdec] at hl
      | ok e2 =>
        rw [hdec] at hl
        cases hrec : chainFrom s e2 n with
        | running => simp [hrec] at hl
        | raised err => simp [hrec] at hl
        | done l2 =>
          simp only [hrec, RunRes.done.injEq] at hl
          subst hl
          obtain ⟨x, hx, hxz⟩ := ih e2 l2 hrec
          refine ⟨x, ?_, hxz⟩
          cases l2 with
          | nil => simp at hx
          | cons b t => simpa [List.getLast?_cons_cons] using hx

/-- A successful full enumeration is exactly the concatenation of the
per-bucket chain lists, and every listed bucket completed successfully. -/
theorem parseBuckets_done (s : Snapshot) (fuel : Nat) :
    ∀ (ks : List Nat) (L : List Entry), parseBuckets s fuel ks = .done L →
      L = (ks.map (fun k => bucketList s k fuel)).flatten ∧
      ∀ k ∈ ks, bucketEntries s k fuel = .done (bucketList s k fuel) := by
  intro ks
  induction ks with
  | nil =>
    intro L hL
    simp only [parseBuckets, RunRes.done.injEq] at hL
    subst hL
    simp
  | cons k rest ih =>
    intro L hL
    rw [show parseBuckets s fuel (k :: rest) =
        (match bucketEntries s k fuel with
         | .running => .running
         | .raised err => .raised err
         | .done l =>
           match parseBuckets s fuel rest with
           | .running => .running
           | .raised err => .raised err
           | .done r => .done (l ++ r)) from rfl] at hL
    cases hb : bucketEntries s k fuel with
    | running => simp [hb] at hL
    | raised err => simp [hb] at hL
    | done l =>
      rw [hb] at hL
      cases hr : parseBuckets s fuel rest with
      | running => simp [hr] at hL
      | raised err => simp [hr] at hL
      | done r =>
        simp only [hr, RunRes.done.injEq] at hL
        subst hL
        obtain ⟨hrj, hmem⟩ := ih r hr
        have hbl : bucketList s k fuel = l := by
          simp [bucketList, hb]
        constructor
        · simp [hbl, ← hrj]
        · intro k2 hk2
          rcases List.mem_cons.mp hk2 with hk2 | hk2
          · subst hk2; rw [hbl]; exact hb
          · exact hmem k2 hk2

/-- The two cyclic fixture entries keep the chain walk running at every
fuel bound. -/
theorem cycSnap_running :
    ∀ fuel, chainFrom cycSnap cycE1 fuel = .running ∧
      chainFrom cycSnap cycE2 fuel = .running := by
  intro fuel
  induction fuel with
  | zero => exact ⟨rfl, rfl⟩
  | succ n ih =>
    constructor
    · rw [chainFrom_succ]
      have h1 : cycE1.next = 0x80000002 := rfl
      have h2 : cycSnap.decodeEntry 0x80000002 = .ok cycE2 := by decide
      rw [h1, if_neg (by decide), h2]
      simp only [ih.2]
    · rw [chainFrom_succ]
      have h1 : cycE2.next = 0x80000001 := rfl
      have h2 : cycSnap.decodeEntry 0x80000001 = .ok cycE1 := by decide
      rw [h1, if_neg (by decide), h2]
      simp only [ih.1]

/-- Extraction is determined by the first `UNKNOWN` data stream: when one
exists, `extractData` applies the content-decoding step to exactly that
stream. -/
theorem extractData_firstUnknown (c : Codecs) (e : Entry) :
    ∀ (l : List CacheDataItem) (d : CacheDataItem), firstUnknown l = some d →
      extractData c e l =
        (match e.httpHeader with
         | none => .ok (some d.bytes)
         | some hh =>
           match headerVal hh "content-encoding" with
           | none => .ok (some d.bytes)
           | some v =>
             if v = "gzip" then
               match c.gunzip d.bytes with
               | .error err => .error err
               | .ok out => .ok (some out)
             else if v = "br" then
               match c.unbr d.bytes with
               | .error err => .error err
               | .ok out => .ok (some out)
             else
               .ok (some d.bytes)) := by
  intro l
  induction l with
  | nil => intro d hd; simp [firstUnknown] at hd
  | cons d0 rest ih =>
    intro d hd
    by_cases ht : d0.type = .UNKNOWN
    · have hd0 : d0 = d := by
        have : firstUnknown (d0 :: rest) = some d0 := by
          simp [firstUnknown, List.find?_cons_of_pos, ht]
        rw [this] at hd
        exact Option.some.inj hd
      subst hd0
      simp [extractData, ht]
    · have hrest : firstUnknown rest = some d := by
        have : firstUnknown (d0 :: rest) = firstUnknown rest := by
          simp [firstUnknown]
          exact List.find?_cons_of_neg rest (by simpa using ht)
        rw [this] at hd
        exact hd
      have hstep : extractData c e (d0 :: rest) = extractData c e rest := by
        simp [extractData, ht]
      rw [hstep]
      exact ih d hrest

/-- Looking a key up in an association list with one more binding in front:
the new binding wins on its own key, everything else falls through. -/
theorem lookupAssoc_cons (p : String × Entry) (m : List (String × Entry))
    (k : String) :
    lookupAssoc (p :: m) k = if p.1 = k then some p.2 else lookupAssoc m k := by
  by_cases h : p.1 = k
  · simp [lookupAssoc, List.find?_cons_of_pos, h]
  · rw [if_neg h]
    unfold lookupAssoc
    rw [List.find?_cons_of_neg]
    simp [h]

/-- Every value stored by the `ChromeCache.__init__` loop passed the
`'fanfiction.net'` filter, whatever map the loop started from. -/
theorem foldl_hcStep_values :
    ∀ (l : List Entry) (m : List (String × Entry)),
      (∀ k e, lookupAssoc m k = some e → hasSub ffnChars e.key.data = true) →
      ∀ k e, lookupAssoc (l.foldl hcStep m) k = some e →
        hasSub ffnChars e.key.data = true := by
  intro l
  induction l with
  | nil => intro m hm; simpa using hm
  | cons a rest ih =>
    intro m hm
    rw [List.foldl_cons]
    apply ih
    intro k e hk
    unfold hcStep at hk
    by_cases hf : hasSub ffnChars a.key.data
    · rw [if_pos hf, lookupAssoc_cons] at hk
      by_cases h1 : normkey a.key = k
      · rw [if_pos h1] at hk
        cases Option.some.inj hk
        exact hf
      · rw [if_neg h1, lookupAssoc_cons] at hk
        by_cases h2 : a.key = k
        · rw [if_pos h2] at hk
          cases Option.some.inj hk
          exact hf
        · rw [if_neg h2] at hk
          exact hm k e hk
    · rw [if_neg hf] at hk
      exact hm k e hk

/-- One loop iteration never removes a key from the map. -/
theorem lookupAssoc_hcStep_mono (m : List (String × Entry)) (a : Entry)
    (k : String) (h : (lookupAssoc m k).isSome) :
    (lookupAssoc (hcStep m a) k).isSome := by
  unfold hcStep
  by_cases hf : hasSub ffnChars a.key.data
  · rw [if_pos hf, lookupAssoc_cons]
    by_cases h1 : normkey a.key = k
    · simp [h1]
    · rw [if_neg h1, lookupAssoc_cons]
      by_cases h2 : a.key = k
      · simp [h2]
      · rw [if_neg h2]
        exact h
  · rw [if_neg hf]
    exact h

/-- The rest of the loop never removes a key from the map. -/
theorem foldl_hcStep_mono :
    ∀ (l : List Entry) (m : List (String × Entry)) (k : String),
      (lookupAssoc m k).isSome → (lookupAssoc (l.foldl hcStep m) k).isSome := by
  intro l
  induction l with
  | nil => intro m k h; simpa using h
  | cons a rest ih =>
    intro m k h
    rw [List.foldl_cons]
    exact ih (hcStep m a) k (lookupAssoc_hcStep_mono m a k h)

/-- Every entry of the loop input that passes the filter ends up indexed
under both of its keys, whatever map the loop started from. -/
theorem foldl_hcStep_mem :
    ∀ (l : List Entry) (m : List (String × Entry)) (e : Entry), e ∈ l →
      hasSub ffnChars e.key.data = true →
      (lookupAssoc (l.foldl hcStep m) e.key).isSome ∧
      (lookupAssoc (l.foldl hcStep m) (normkey e.key)).isSome := by
  intro l
  induction l with
  | nil => intro m e he; cases he
  | cons a rest ih =>
    intro m e he hf
    rw [List.foldl_cons]
    rcases List.mem_cons.mp he with he | he
    · subst he
      have hkey : (lookupAssoc (hcStep m e) e.key).isSome := by
        unfold hcStep
        rw [if_pos hf, lookupAssoc_cons]
        by_cases h1 : normkey e.key = e.key
        · simp [h1]
        · rw [if_neg h1, lookupAssoc_cons]
          simp
      have hnorm : (lookupAssoc (hcStep m e) (normkey e.key)).isSome := by
        unfold hcStep
        rw [if_pos hf, lookupAssoc_cons]
        simp
      exact ⟨foldl_hcStep_mono rest (hcStep m e) e.key hkey,
        foldl_hcStep_mono rest (hcStep m e) (normkey e.key) hnorm⟩
    · exact ih (hcStep m a) e he hf

/-- C9: for every hash value and every power-of-two table size, the bucket
index `hash & (tableSize - 1)` computed by `parse` lies in
`[0, tableSize)`. -/
theorem bucket_index_lt_tableSize (h k : Nat) : bucketKey h (2 ^ k) < 2 ^ k := by
  have hlt : 2 ^ k - 1 < 2 ^ k := Nat.sub_lt (Nat.two_pow_pos k) Nat.one_pos
  simpa [bucketKey] using Nat.and_lt_two_pow h hlt

/-- C1: targeted lookup on a bucket whose head token is initialized and
whose chain walk completes with entry list `l` accepts exactly the first
entry of `l` whose stored `hash` field equals the SuperFastHash of the
URL's bytes, and reports no match when no entry of the chain matches. -/
theorem targeted_lookup_first_hash_match (s : Snapshot) (url : List Nat)
    (fuel : Nat) (e : Entry) (l : List Entry)
    (hinit : s.table (bucketKey (superFastHash url) s.tableSize) &&& 0x80000000 ≠ 0)
    (hdec : s.decodeEntry (s.table (bucketKey (superFastHash url) s.tableSize)) = .ok e)
    (hchain : chainFrom s e fuel = .done l) :
    lookupUrl s url fuel =
      .done (match l.find? (fun x => x.hash == superFastHash url) with
             | some e2 => .found e2
             | none => .noMatch) := by
  have hfind := findInChain_eq_find s (superFastHash url) fuel e l hchain
  simp only [lookupUrl]
  rw [if_neg hinit, hdec]
  simp only [hfind]
  cases l.find? (fun x => x.hash == superFastHash url) with
  | none => rfl
  | some e2 => rfl

/-- Witness for C1, realizing the spec scenario: a three-entry chain with
hashes `H1 → H2 → H3` where the URL `"u"` (bytes `[117]`) hashes to `H2`;
the lookup returns the second entry, not the first or third. -/
theorem targeted_lookup_first_hash_match_witness :
    lookupUrl chain3 [117] 5 = .done (.found chainE2) :=
  (targeted_lookup_first_hash_match chain3 [117] 5 chainE1
    [chainE1, chainE2, chainE3] (by decide) (by decide) (by decide)).trans
    (by decide)

/-- C2 counterexample: on the concrete two-entry cyclic chain (reachable
from the bucket head of `cycSnap`), the chain walk is still running at
every hop bound — it neither terminates nor reports any error, so there is
no configured maximum hop count and no `CorruptChain` report. -/
theorem chain_cycle_hangs_counterexample :
    chainHangs cycSnap cycE1 ∧ cycSnap.decodeEntry (cycSnap.table 0) = .ok cycE1 :=
  ⟨fun fuel => (cycSnap_running fuel).1, by decide⟩

/-- C2 (amended): chain traversal terminates only by reaching the `next = 0`
terminator — a completed walk always ends at an entry whose `next` token is
zero; there is no hop bound and no `CorruptChain` error. -/
theorem chain_walk_terminates_only_at_zero (s : Snapshot) (e : Entry)
    (fuel : Nat) (l : List Entry) (h : chainFrom s e fuel = .done l) :
    ∃ x, l.getLast? = some x ∧ x.next = 0 :=
  chainFrom_last_next_zero s fuel e l h

/-- Witness for C2's amended theorem on the three-entry chain fixture. -/
theorem chain_walk_terminates_only_at_zero_witness :
    ∃ x, ([chainE1, chainE2, chainE3].getLast? = some x ∧ x.next = 0) :=
  chain_walk_terminates_only_at_zero chain3 chainE1 5
    [chainE1, chainE2, chainE3] (by decide)

/-- C3: a completed full enumeration (`parse` with `urls = None`) returns
exactly the concatenation, in bucket order, of every bucket's chain list;
a bucket with a zero head token contributes no entries, and every bucket
with a nonzero head token contributes its full declarative chain (head
first, following `next` until 0). -/
theorem full_enum_all_chains (s : Snapshot) (fuel : Nat) (out : ParseOut)
    (h : parse s none fuel = .done out) :
    out.cache = ((List.range s.tableSize).map (fun k => bucketList s k fuel)).flatten ∧
    ∀ k < s.tableSize,
      (s.table k = 0 → bucketList s k fuel = []) ∧
      (s.table k ≠ 0 → ∃ e, s.decodeEntry (s.table k) = .ok e ∧
        ChainRel s e (bucketList s k fuel)) := by
  simp only [parse] at h
  cases hp : parseBuckets s fuel (List.range s.tableSize) with
  | running => rw [hp] at h; cases h
  | raised err => rw [hp] at h; cases h
  | done L =>
    rw [hp] at h
    cases h
    obtain ⟨hL, hmem⟩ := parseBuckets_done s fuel (List.range s.tableSize) L hp
    refine ⟨hL, ?_⟩
    intro k hk
    have hkmem : k ∈ List.range s.tableSize := List.mem_range.mpr hk
    have hbk := hmem k hkmem
    constructor
    · intro hz
      simp [bucketList, bucketEntries, hz]
    · intro hnz
      rw [show bucketEntries s k fuel =
          (match s.decodeEntry (s.table k) with
           | .error err => .raised err
           | .ok e => chainFrom s e fuel) from by
        simp [bucketEntries, hnz]] at hbk
      cases hd : s.decodeEntry (s.table k) with
      | error err => rw [hd] at hbk; cases hbk
      | ok e =>
        rw [hd] at hbk
        exact ⟨e, rfl, chainFrom_rel s fuel e (bucketList s k fuel) hbk⟩

/-- Witness for C3 on the two-bucket fixture: bucket 0 holds the one-entry
chain `[goodE]`, bucket 1 has a zero head token and contributes nothing. -/
theorem full_enum_all_chains_witness :
    (ParseOut.mk [goodE] []).cache =
      ((List.range twoBucket.tableSize).map (fun k => bucketList twoBucket k 5)).flatten ∧
    bucketList twoBucket 1 5 = [] ∧
    ChainRel twoBucket goodE (bucketList twoBucket 0 5) := by
  have H := full_enum_all_chains twoBucket 5 (ParseOut.mk [goodE] []) (by decide)
  refine ⟨H.1, (H.2 1 (by decide)).1 (by decide), ?_⟩
  obtain ⟨e, he, hc⟩ := (H.2 0 (by decide)).2 (by decide)
  have heq : e = goodE := by
    have h2 : twoBucket.decodeEntry (twoBucket.table 0) = Except.ok goodE := by decide
    exact Except.ok.inj (he.symm.trans h2)
  rw [← heq]
  exact hc
/-- C4 counterexample: in `cex4`, bucket 0 decodes to the good entry but
bucket 1's head entry decode raises; `parse` propagates the exception and
returns nothing, instead of skipping the failing entry and returning the
good entry from the remaining bucket as the claim requires. -/
theorem decode_error_counterexample :
    parse cex4 none 10 = .raised .corruptEntry ∧
    parse cex4 none 10 ≠ .done (ParseOut.mk [goodE] []) := by
  decide

/-- C4 (amended): an error while decoding one entry aborts the whole
full-cache enumeration — when any bucket's walk raises, `parse` returns no
entry list at all (nothing is skipped, nothing partial is returned). -/
theorem decode_error_aborts_enumeration (s : Snapshot) (fuel k : Nat)
    (err : CacheErr) (hk : k < s.tableSize)
    (hb : bucketEntries s k fuel = .raised err) :
    ∀ out, parse s none fuel ≠ .done out := by
  intro out hdone
  simp only [parse] at hdone
  cases hp : parseBuckets s fuel (List.range s.tableSize) with
  | running => rw [hp] at hdone; cases hdone
  | raised e2 => rw [hp] at hdone; cases hdone
  | done L =>
    have hmem := (parseBuckets_done s fuel (List.range s.tableSize) L hp).2
      k (List.mem_range.mpr hk)
    rw [hb] at hmem
    cases hmem

/-- Witness for C4's amended theorem at the concrete corrupt snapshot. -/
theorem decode_error_aborts_enumeration_witness :
    parse cex4 none 10 ≠ .done (ParseOut.mk [] []) :=
  decode_error_aborts_enumeration cex4 10 1 .corruptEntry (by decide)
    (by decide) (ParseOut.mk [] [])

/-- C5 counterexample: in `cex5` the bucket head token is `1` — nonzero but
with the top (initialized) bit clear.  Full enumeration still attempts to
decode it (only `raw != 0` is checked, not the top bit), and the attempt
raises `MalformedAddress` instead of yielding an empty chain with no
error. -/
theorem nonzero_uninit_head_counterexample :
    parse cex5 none 10 = .raised .malformedAddress ∧
    parse cex5 none 10 ≠ .done (ParseOut.mk [] []) := by
  decide

/-- C5 (amended): the two branches gate bucket heads differently — full
enumeration skips a bucket (empty chain, no decode, no error) only when its
head token is exactly zero, while targeted lookup checks the top bit and
reports a miss without any decode attempt whenever it is clear. -/
theorem head_token_gating (s : Snapshot) (fuel k : Nat) (url : List Nat) :
    (s.table k = 0 → bucketEntries s k fuel = .done []) ∧
    (s.table (bucketKey (superFastHash url) s.tableSize) &&& 0x80000000 = 0 →
      lookupUrl s url fuel = .done .miss) := by
  constructor
  · intro hz
    simp [bucketEntries, hz]
  · intro hcl
    simp only [lookupUrl]
    rw [if_pos hcl]

/-- Witness for C5's amended theorem: the zero-token bucket of `twoBucket`
yields an empty chain, and a top-bit-clear head in `uninitSnap` yields a
targeted miss. -/
theorem head_token_gating_witness :
    bucketEntries twoBucket 1 3 = .done [] ∧
    lookupUrl uninitSnap [117] 3 = .done .miss :=
  ⟨(head_token_gating twoBucket 3 1 []).1 (by decide),
    (head_token_gating uninitSnap 3 0 [117]).2 (by decide)⟩

/-- C6: targeted lookup of a URL whose hash lands on a bucket with an
uninitialized head token (top bit clear) reports the URL as a miss and
returns no entry for it, raising no exception whatever the decoder would
do — `parse` completes normally with an empty cache list. -/
theorem uninit_bucket_reports_miss (s : Snapshot) (url : List Nat)
    (fuel : Nat)
    (h : s.table (bucketKey (superFastHash url) s.tableSize) &&& 0x80000000 = 0) :
    parse s (some [url]) fuel = .done (ParseOut.mk [] [url]) := by
  have hl : lookupUrl s url fuel = .done .miss := by
    simp only [lookupUrl]
    rw [if_pos h]
  simp [parse, parseUrls, hl]

/-- Witness for C6: the all-uninitialized snapshot reports the URL `[117]`
as a miss even though its decoder raises on every token. -/
theorem uninit_bucket_reports_miss_witness :
    parse uninitSnap (some [[117]]) 3 = .done (ParseOut.mk [] [[117]]) :=
  uninit_bucket_reports_miss uninitSnap [117] 3 (by decide)

/-- C7 counterexample: with a gzip-declared body whose inflation fails, the
body accessor raises the decompression error out of `get_cached_file` — the
still-compressed bytes `[9, 9]` are not returned with the error as the
claim requires; the caller gets no data at all. -/
theorem body_decode_failure_counterexample :
    get_cached_file failCodecs hc7 "u" = .error .decodeError ∧
    get_cached_file failCodecs hc7 "u" ≠ .ok (some [9, 9]) := by
  decide

/-- C7 (amended): when the first `UNKNOWN` body stream is declared `gzip`
(resp. `br`) and the decompressor fails, `get_cached_file` propagates that
failure and returns nothing — the compressed bytes are lost rather than
returned alongside the error. -/
theorem body_decode_failure_raises (c : Codecs) (hcm : List (String × Entry))
    (url : String) (e : Entry) (d : CacheDataItem) (hh : HttpHeader)
    (err : CacheErr) (hlook : lookupAssoc hcm url = some e)
    (hfirst : firstUnknown e.data = some d) (hhdr : e.httpHeader = some hh)
    (hcase : (headerVal hh "content-encoding" = some "gzip" ∧
        c.gunzip d.bytes = .error err) ∨
      (headerVal hh "content-encoding" = some "br" ∧
        c.unbr d.bytes = .error err)) :
    get_cached_file c hcm url = .error err := by
  have hx := extractData_firstUnknown c e e.data d hfirst
  have hg : get_cached_file c hcm url = extractData c e e.data := by
    simp [get_cached_file, hlook]
  rw [hg, hx]
  rcases hcase with ⟨henc, hfail⟩ | ⟨henc, hfail⟩
  · simp [hhdr, henc, hfail]
  · simp [hhdr, henc, hfail]

/-- Witness for C7's amended theorem with a failing brotli body. -/
theorem body_decode_failure_raises_witness :
    get_cached_file failCodecs hc7b "v" = .error .decodeError :=
  body_decode_failure_raises failCodecs hc7b "v" brEntry
    ⟨.UNKNOWN, [4, 4]⟩ ⟨[("content-encoding", "br")]⟩ .decodeError
    (by decide) (by decide) (by decide) (Or.inr ⟨by decide, by decide⟩)

/-- C8 counterexample: an unsupported `content-encoding: deflate` body is
returned as raw bytes with no failure, but with no `UnsupportedEncoding`
warning either — the result is indistinguishable from the `identity`
entry's result, so no warning is surfaced to the caller. -/
theorem unsupported_encoding_counterexample :
    get_cached_file failCodecs hc8 "b" = .ok (some [7, 8]) ∧
    get_cached_file failCodecs hc8 "b" = get_cached_file failCodecs hc8 "a" := by
  decide

/-- C8 (amended): when the first `UNKNOWN` body stream's declared encoding
is neither `gzip` nor `br` — including `identity`, an unrecognized value,
or a missing `content-encoding` header — `get_cached_file` returns the
bytes unchanged and cannot fail, but emits no `UnsupportedEncoding`
warning: the unsupported case is identical to the identity case. -/
theorem other_encoding_returns_raw (c : Codecs) (hcm : List (String × Entry))
    (url : String) (e : Entry) (d : CacheDataItem)
    (hlook : lookupAssoc hcm url = some e)
    (hfirst : firstUnknown e.data = some d)
    (henc : e.httpHeader = none ∨
      ∃ hh, e.httpHeader = some hh ∧
        (headerVal hh "content-encoding" = none ∨
          ∃ v, headerVal hh "content-encoding" = some v ∧
            v ≠ "gzip" ∧ v ≠ "br")) :
    get_cached_file c hcm url = .ok (some d.bytes) := by
  have hx := extractData_firstUnknown c e e.data d hfirst
  have hg : get_cached_file c hcm url = extractData c e e.data := by
    simp [get_cached_file, hlook]
  rw [hg, hx]
  rcases henc with hnone | ⟨hh, hhdr, hcase⟩
  · simp [hnone]
  · rcases hcase with hnone | ⟨v, hv, hvg, hvb⟩
    · simp [hhdr, hnone]
    · simp [hhdr, hv, hvg, hvb]

/-- Witness for C8's amended theorem: the `identity`-declared body is
returned unchanged. -/
theorem other_encoding_returns_raw_witness :
    get_cached_file failCodecs hc8 "a" = .ok (some [7, 8]) :=
  other_encoding_returns_raw failCodecs hc8 "a" idEntry ⟨.UNKNOWN, [7, 8]⟩
    (by decide) (by decide)
    (Or.inr ⟨⟨[("content-encoding", "identity")]⟩, by decide,
      Or.inr ⟨"identity", by decide, by decide, by decide⟩⟩)

/-- C10: `ChromeCache` indexes only entries whose key contains
`'fanfiction.net'` (every value stored in `hash_cache` passed the filter),
each such entry is reachable under its full key and under its normalized
story-URL key, and `get_cached_file` on any url that is not a key of the
index returns `None` without raising. -/
theorem hash_cache_index (cache : List Entry) (c : Codecs) :
    (∀ k e, lookupAssoc (buildHashCache cache) k = some e →
      hasSub ffnChars e.key.data = true) ∧
    (∀ e ∈ cache, hasSub ffnChars e.key.data = true →
      (lookupAssoc (buildHashCache cache) e.key).isSome ∧
      (lookupAssoc (buildHashCache cache) (normkey e.key)).isSome) ∧
    (∀ url, lookupAssoc (buildHashCache cache) url = none →
      get_cached_file c (buildHashCache cache) url = .ok none) := by
  refine ⟨?_, ?_, ?_⟩
  · exact foldl_hcStep_values cache []
      (fun k e h => by simp [lookupAssoc] at h)
  · intro e he hf
    exact foldl_hcStep_mem cache [] e he hf
  · intro url hnone
    simp [get_cached_file, hnone]

/-- Witness for C10 on the concrete two-entry cache: the fanfiction.net
entry passes the filter and is indexed under its full key, and a url absent
from the index yields `None`. -/
theorem hash_cache_index_witness :
    hasSub ffnChars ffnEntry.key.data = true ∧
    (lookupAssoc (buildHashCache cache10) ffnEntry.key).isSome ∧
    get_cached_file failCodecs (buildHashCache cache10) "https://example.com/x" =
      .ok none := by
  have H := hash_cache_index cache10 failCodecs
  refine ⟨?_, ?_, ?_⟩
  · exact (H.1) ffnEntry.key ffnEntry (by decide)
  · exact ((H.2.1) ffnEntry (by decide) (by decide)).1
  · exact (H.2.2) "https://example.com/x" (by decide)

end CacheParse
